import Mathlib

/-!
Verification of the reconciliation and quality-validation engine of the
svk-power-scraper repository, shallowly embedded in Lean.

The embeddings follow the two source files:
* `scripts/github_actions_runner.py` — `merge_dataframes` (concat,
  `drop_duplicates(subset=['Date','Timme'], keep='last')`, then
  `sort_values(['Date','Timme'])`) and `save_master_data` (backup rotation
  keeping the five most recent timestamped backups).
* `scripts/data_quality_check.py` — `check_date_continuity`,
  `check_duplicates`, `check_missing_values`, `check_data_gaps`,
  `calculate_coverage`, `run_all_checks` and `main`.

Dates are modelled as integer day numbers (ISO date strings sort and compare
exactly like their day numbers); a DataFrame is modelled as the list of its
rows or columns of interest.
-/

namespace SVK

/-- One scraped record, as a row of the master DataFrame: the identity key
columns `Date` and `Timme` plus an opaque payload standing for the
measurement columns. -/
structure Record where
  date : Nat
  timme : Nat
  value : Int
deriving DecidableEq, Repr

/-- The identity key `(Date, Timme)` of a record. -/
def recKey (r : Record) : Nat × Nat := (r.date, r.timme)

/-- Two rows agree on the identity-key columns `Date` and `Timme`. -/
def sameKey (a b : Record) : Bool := decide (recKey a = recKey b)

/-- `a` sorts no later than `b` under `sort_values(['Date','Timme'])`:
lexicographic comparison of the key columns. -/
def keyLe (a b : Record) : Bool :=
  decide (a.date < b.date) || (decide (a.date = b.date) && decide (a.timme ≤ b.timme))

/-- Does some row of `l` share the identity key of `x`? -/
def hasKeyIn (l : List Record) (x : Record) : Bool := l.any (sameKey x)

/-- `DataFrame.drop_duplicates(subset=['Date','Timme'], keep='last')`:
a row is kept exactly when no later row carries the same key, so the last
occurrence of every key survives, in order. -/
def dropDupLast : List Record → List Record
  | [] => []
  | r :: rs => if hasKeyIn rs r then dropDupLast rs else r :: dropDupLast rs

/-- Insert `x` into `l` in front of the first element it sorts before. -/
def insertLe {α : Type} (le : α → α → Bool) (x : α) : List α → List α
  | [] => [x]
  | y :: ys => if le x y then x :: y :: ys else y :: insertLe le x ys

/-- Insertion sort by `le`; models the (content of the) pandas
`sort_values` result.  After deduplication all keys are distinct, so the
sorted list does not depend on which sorting algorithm pandas uses. -/
def sortLe {α : Type} (le : α → α → Bool) : List α → List α
  | [] => []
  | x :: xs => insertLe le x (sortLe le xs)

/-- `GitHubActionsDataManager.merge_dataframes`: return the other input when
one is empty, otherwise concatenate, drop duplicate `(Date, Timme)` keys
keeping the last occurrence, and sort by `(Date, Timme)`. -/
def merge_dataframes (df_existing df_new : List Record) : List Record :=
  if df_existing = [] then df_new
  else if df_new = [] then df_existing
  else sortLe keyLe (dropDupLast (df_existing ++ df_new))

/-- The keys of a list of records are pairwise distinct (the RecordSet
identity invariant of the spec). -/
def keysNodup (l : List Record) : Prop := (l.map recKey).Nodup

/-- Number of rows of `l` carrying the key `k`. -/
def countKey (l : List Record) (k : Nat × Nat) : Nat :=
  l.countP (fun r => decide (recKey r = k))

theorem bool_eq_false {b : Bool} (h : ¬b = true) : b = false := by
  cases b
  · rfl
  · exact absurd rfl h

section SortLemmas

variable {α : Type} (le : α → α → Bool)

theorem perm_insertLe (x : α) (l : List α) :
    List.Perm (insertLe le x l) (x :: l) := by
  induction l with
  | nil => exact List.Perm.refl _
  | cons y ys ih =>
    unfold insertLe
    by_cases h : le x y
    · simp [h]
    · simp only [h, if_neg, Bool.false_eq_true, if_false]
      exact (ih.cons y).trans (List.Perm.swap x y ys)

theorem perm_sortLe (l : List α) : List.Perm (sortLe le l) l := by
  induction l with
  | nil => exact List.Perm.refl _
  | cons x xs ih =>
    exact (perm_insertLe le x (sortLe le xs)).trans (ih.cons x)

theorem mem_insertLe {x a : α} {l : List α} :
    a ∈ insertLe le x l ↔ a = x ∨ a ∈ l := by
  rw [(perm_insertLe le x l).mem_iff, List.mem_cons]

theorem pairwise_insertLe
    (htot : ∀ a b, le a b = true ∨ le b a = true)
    (htrans : ∀ a b c, le a b = true → le b c = true → le a c = true)
    {x : α} {l : List α} (h : l.Pairwise (fun a b => le a b = true)) :
    (insertLe le x l).Pairwise (fun a b => le a b = true) := by
  induction l with
  | nil => simp [insertLe]
  | cons y ys ih =>
    rcases List.pairwise_cons.mp h with ⟨hy, hys⟩
    unfold insertLe
    by_cases hxy : le x y
    · simp only [hxy, if_pos]
      refine List.pairwise_cons.mpr ⟨?_, h⟩
      intro z hz
      rcases List.mem_cons.mp hz with rfl | hz
      · exact hxy
      · exact htrans x y z hxy (hy z hz)
    · simp only [hxy, Bool.false_eq_true, if_false]
      refine List.pairwise_cons.mpr ⟨?_, ih hys⟩
      intro z hz
      rcases (mem_insertLe le).mp hz with rfl | hz
      · rcases htot y z with hyz | hzy
        · exact hyz
        · cases hxy hzy
      · exact hy z hz

theorem pairwise_sortLe
    (htot : ∀ a b, le a b = true ∨ le b a = true)
    (htrans : ∀ a b c, le a b = true → le b c = true → le a c = true)
    (l : List α) :
    (sortLe le l).Pairwise (fun a b => le a b = true) := by
  induction l with
  | nil => simp [sortLe]
  | cons x xs ih => exact pairwise_insertLe le htot htrans ih

/-- Two sorted lists that are permutations of each other are equal, provided
the order behaves antisymmetrically on the elements actually present. -/
theorem eq_of_perm_of_pairwise :
    ∀ {l₁ l₂ : List α}, List.Perm l₁ l₂ →
      l₁.Pairwise (fun a b => le a b = true) →
      l₂.Pairwise (fun a b => le a b = true) →
      (∀ a b, a ∈ l₁ → b ∈ l₁ → le a b = true → le b a = true → a = b) →
      l₁ = l₂ := by
  intro l₁
  induction l₁ with
  | nil =>
    intro l₂ hp _ _ _
    exact hp.nil_eq
  | cons a t₁ ih =>
    intro l₂ hp s₁ s₂ hanti
    cases l₂ with
    | nil => exact absurd hp.eq_nil (by simp)
    | cons b t₂ =>
      rcases List.pairwise_cons.mp s₁ with ⟨ha, ht₁⟩
      rcases List.pairwise_cons.mp s₂ with ⟨hb, ht₂⟩
      have hab : a = b := by
        by_cases h : a = b
        · exact h
        · have ham : a ∈ b :: t₂ := hp.subset (List.mem_cons_self a t₁)
          have hbm : b ∈ a :: t₁ := hp.symm.subset (List.mem_cons_self b t₂)
          have hat₂ : a ∈ t₂ := by
            rcases List.mem_cons.mp ham with h1 | h1
            · exact absurd h1 h
            · exact h1
          have hbt₁ : b ∈ t₁ := by
            rcases List.mem_cons.mp hbm with h1 | h1
            · exact absurd h1 (fun hh => h hh.symm)
            · exact h1
          exact hanti a b (List.mem_cons_self a t₁)
            (List.mem_cons_of_mem a hbt₁) (ha b hbt₁) (hb a hat₂)
      subst hab
      have hpt : List.Perm t₁ t₂ := hp.cons_inv
      have : t₁ = t₂ := by
        refine ih hpt ht₁ ht₂ ?_
        intro x y hx hy hxy hyx
        exact hanti x y (List.mem_cons_of_mem a hx) (List.mem_cons_of_mem a hy) hxy hyx
      rw [this]

end SortLemmas

theorem keyLe_total (a b : Record) : keyLe a b = true ∨ keyLe b a = true := by
  simp only [keyLe, Bool.or_eq_true, Bool.and_eq_true, decide_eq_true_eq]
  omega

theorem keyLe_trans (a b c : Record) :
    keyLe a b = true → keyLe b c = true → keyLe a c = true := by
  simp only [keyLe, Bool.or_eq_true, Bool.and_eq_true, decide_eq_true_eq]
  omega

theorem keyLe_antisymm_key {a b : Record} (h1 : keyLe a b = true)
    (h2 : keyLe b a = true) : recKey a = recKey b := by
  simp only [keyLe, Bool.or_eq_true, Bool.and_eq_true, decide_eq_true_eq] at h1 h2
  simp only [recKey, Prod.mk.injEq]
  omega

theorem sameKey_iff {a b : Record} : sameKey a b = true ↔ recKey a = recKey b := by
  simp [sameKey]

theorem hasKeyIn_iff {l : List Record} {x : Record} :
    hasKeyIn l x = true ↔ recKey x ∈ l.map recKey := by
  simp only [hasKeyIn, List.any_eq_true, List.mem_map]
  constructor
  · rintro ⟨s, hs, hk⟩
    exact ⟨s, hs, (sameKey_iff.mp hk).symm⟩
  · rintro ⟨s, hs, hk⟩
    exact ⟨s, hs, sameKey_iff.mpr hk.symm⟩

theorem dropDupLast_cons (r : Record) (rs : List Record) :
    dropDupLast (r :: rs) =
      if hasKeyIn rs r then dropDupLast rs else r :: dropDupLast rs := rfl

theorem dropDupLast_sublist (l : List Record) :
    List.Sublist (dropDupLast l) l := by
  induction l with
  | nil => exact List.Sublist.refl _
  | cons r rs ih =>
    rw [dropDupLast_cons]
    by_cases h : hasKeyIn rs r
    · simp only [h, if_pos]
      exact ih.cons r
    · simp only [h, Bool.false_eq_true, if_false]
      exact ih.cons₂ r

theorem dropDupLast_subset {l : List Record} {x : Record}
    (h : x ∈ dropDupLast l) : x ∈ l := (dropDupLast_sublist l).subset h

theorem keysNodup_dropDupLast (l : List Record) : keysNodup (dropDupLast l) := by
  induction l with
  | nil => simp [keysNodup, dropDupLast]
  | cons r rs ih =>
    rw [dropDupLast_cons]
    by_cases h : hasKeyIn rs r
    · simpa [h] using ih
    · simp only [h, Bool.false_eq_true, if_false, keysNodup, List.map_cons,
        List.nodup_cons]
      refine ⟨?_, ih⟩
      intro hk
      rcases List.mem_map.mp hk with ⟨s, hs, hsk⟩
      have hm : recKey r ∈ rs.map recKey :=
        List.mem_map.mpr ⟨s, dropDupLast_subset hs, hsk⟩
      exact h (hasKeyIn_iff.mpr hm)

theorem dropDupLast_of_keysNodup {l : List Record} (h : keysNodup l) :
    dropDupLast l = l := by
  induction l with
  | nil => rfl
  | cons r rs ih =>
    simp only [keysNodup, List.map_cons, List.nodup_cons] at h
    have hk : hasKeyIn rs r = false := by
      rw [Bool.eq_false_iff]
      intro hc
      exact h.1 (hasKeyIn_iff.mp hc)
    rw [dropDupLast_cons, hk]
    simp [ih h.2]

theorem dropDupLast_append (l₁ l₂ : List Record) :
    dropDupLast (l₁ ++ l₂) =
      (dropDupLast l₁).filter (fun x => !hasKeyIn l₂ x) ++ dropDupLast l₂ := by
  induction l₁ with
  | nil => simp [dropDupLast]
  | cons r rs ih =>
    have hsplit : hasKeyIn (rs ++ l₂) r = (hasKeyIn rs r || hasKeyIn l₂ r) := by
      simp [hasKeyIn, List.any_append]
    rw [List.cons_append, dropDupLast_cons, dropDupLast_cons, hsplit]
    by_cases h1 : hasKeyIn rs r
    · rw [h1]
      simp only [Bool.true_or, if_pos, if_true]
      exact ih
    · rw [bool_eq_false h1]
      by_cases h2 : hasKeyIn l₂ r
      · rw [h2]
        simp only [Bool.false_or, if_true, Bool.false_eq_true, if_false, ih]
        rw [List.filter_cons_of_neg]
        simp [h2]
      · rw [bool_eq_false h2]
        simp only [Bool.false_or, Bool.false_eq_true, if_false, ih]
        rw [List.filter_cons_of_pos]
        · simp
        · simp [bool_eq_false h2]

theorem countKey_dropDupLast (l : List Record) (k : Nat × Nat) :
    countKey (dropDupLast l) k = if k ∈ l.map recKey then 1 else 0 := by
  induction l with
  | nil => simp [countKey, dropDupLast]
  | cons r rs ih =>
    rw [dropDupLast_cons]
    by_cases h : hasKeyIn rs r
    · simp only [h, if_pos, ih, List.map_cons, List.mem_cons]
      by_cases hk : k = recKey r
      · subst hk
        simp [hasKeyIn_iff.mp h]
      · simp [hk]
    · have hnot : recKey r ∉ rs.map recKey := fun hc =>
        h (hasKeyIn_iff.mpr hc)
      simp only [h, Bool.false_eq_true, if_false, countKey, List.countP_cons,
        List.map_cons, List.mem_cons]
      by_cases hk : k = recKey r
      · subst hk
        have h0 : countKey (dropDupLast rs) (recKey r) = 0 := by
          simpa [hnot] using ih
        simp only [countKey] at h0
        simp [h0]
      · have h1 := ih
        simp only [countKey] at h1
        simp only [h1, hk]
        have hrk : ¬recKey r = k := fun hc => hk hc.symm
        simp [hrk, hk]

/-- A row having no later row with the same key survives `dropDupLast`. -/
theorem mem_dropDupLast_of_no_later (l₁ l₂ : List Record) (r : Record)
    (h : ∀ s ∈ l₂, recKey s ≠ recKey r) :
    r ∈ dropDupLast (l₁ ++ r :: l₂) := by
  induction l₁ with
  | nil =>
    have hk : hasKeyIn l₂ r = false := by
      rw [Bool.eq_false_iff]
      intro hc
      rcases List.mem_map.mp (hasKeyIn_iff.mp hc) with ⟨s, hs, hsk⟩
      exact h s hs hsk
    rw [List.nil_append, dropDupLast_cons, hk]
    simp
  | cons x xs ih =>
    rw [List.cons_append, dropDupLast_cons]
    by_cases hx : hasKeyIn (xs ++ r :: l₂) x
    · simpa [hx] using ih
    · simp only [hx, Bool.false_eq_true, if_false, List.mem_cons]
      exact Or.inr ih

/-- The output of `sort_values(['Date','Timme'])` is non-decreasing in the
`(Date, Timme)` key. -/
def sortedByKey (l : List Record) : Prop := l.Pairwise (fun a b => keyLe a b = true)

instance (l : List Record) : Decidable (sortedByKey l) := by
  unfold sortedByKey
  infer_instance

instance (l : List Record) : Decidable (keysNodup l) := by
  unfold keysNodup
  infer_instance

theorem keysNodup_of_perm {l₁ l₂ : List Record} (hp : List.Perm l₁ l₂)
    (h : keysNodup l₁) : keysNodup l₂ := ((hp.map recKey).nodup_iff).mp h

theorem nodup_of_keysNodup {l : List Record} (h : keysNodup l) : l.Nodup :=
  List.Nodup.of_map recKey h

theorem eq_of_sameKey_of_keysNodup {l : List Record} (h : keysNodup l)
    {a b : Record} (ha : a ∈ l) (hb : b ∈ l) (hk : recKey a = recKey b) :
    a = b := List.inj_on_of_nodup_map h ha hb hk

theorem merge_eq_of_ne {A B : List Record} (hA : A ≠ []) (hB : B ≠ []) :
    merge_dataframes A B = sortLe keyLe (dropDupLast (A ++ B)) := by
  simp [merge_dataframes, hA, hB]

theorem sortedByKey_sortLe (l : List Record) : sortedByKey (sortLe keyLe l) :=
  pairwise_sortLe keyLe keyLe_total keyLe_trans l

theorem sortedByKey_merge {A B : List Record} (hA : A ≠ []) (hB : B ≠ []) :
    sortedByKey (merge_dataframes A B) := by
  rw [merge_eq_of_ne hA hB]
  exact sortedByKey_sortLe _

theorem keysNodup_merge {A B : List Record} (hA : A ≠ []) (hB : B ≠ []) :
    keysNodup (merge_dataframes A B) := by
  rw [merge_eq_of_ne hA hB]
  exact keysNodup_of_perm (perm_sortLe keyLe _).symm (keysNodup_dropDupLast _)

theorem dropDupLast_eq_nil_iff {l : List Record} : dropDupLast l = [] ↔ l = [] := by
  induction l with
  | nil => simp [dropDupLast]
  | cons r rs ih =>
    rw [dropDupLast_cons]
    by_cases h : hasKeyIn rs r
    · simp only [h, if_pos, ih]
      constructor
      · rintro rfl
        simp [hasKeyIn] at h
      · intro hc
        cases hc
    · simp [h]

theorem merge_ne_nil {A B : List Record} (hA : A ≠ []) (hB : B ≠ []) :
    merge_dataframes A B ≠ [] := by
  rw [merge_eq_of_ne hA hB]
  intro hc
  have hp : List.Perm [] (dropDupLast (A ++ B)) :=
    hc ▸ perm_sortLe keyLe (dropDupLast (A ++ B))
  have hd : dropDupLast (A ++ B) = [] := hp.symm.eq_nil
  exact hA (List.append_eq_nil.mp (dropDupLast_eq_nil_iff.mp hd)).1

/-- If `x` sits in the merged set, it sits in the deduplicated concatenation
and conversely (merge only reorders the deduplicated concatenation). -/
theorem mem_merge_iff {A B : List Record} (hA : A ≠ []) (hB : B ≠ []) {x : Record} :
    x ∈ merge_dataframes A B ↔ x ∈ dropDupLast (A ++ B) := by
  rw [merge_eq_of_ne hA hB]
  exact (perm_sortLe keyLe _).mem_iff

/-- Core of the idempotence proof: re-merging the merged set with the same
incoming batch deduplicates to a permutation of the merged set itself. -/
theorem dropDupLast_merge_append_perm {A B : List Record} (hA : A ≠ []) (hB : B ≠ []) :
    List.Perm (dropDupLast (merge_dataframes A B ++ B)) (merge_dataframes A B) := by
  have hMnd : keysNodup (merge_dataframes A B) := keysNodup_merge hA hB
  rw [dropDupLast_append, dropDupLast_of_keysNodup hMnd]
  have hnn : (fun x => !!hasKeyIn B x) = fun x => hasKeyIn B x := by
    funext x
    exact Bool.not_not _
  have hsplit :
      List.Perm
        ((merge_dataframes A B).filter (fun x => !hasKeyIn B x) ++
          (merge_dataframes A B).filter (fun x => hasKeyIn B x))
        (merge_dataframes A B) := by
    have := List.filter_append_perm (fun x => !hasKeyIn B x) (merge_dataframes A B)
    rwa [hnn] at this
  refine List.Perm.trans (List.Perm.append_left _ ?_) hsplit
  have hnd₁ : (dropDupLast B).Nodup := nodup_of_keysNodup (keysNodup_dropDupLast B)
  have hnd₂ : ((merge_dataframes A B).filter (fun x => hasKeyIn B x)).Nodup := by
    refine nodup_of_keysNodup ?_
    exact List.Nodup.sublist ((List.filter_sublist _).map recKey) hMnd
  rw [List.perm_ext_iff_of_nodup hnd₁ hnd₂]
  intro x
  constructor
  · intro hx
    have hxB : x ∈ B := dropDupLast_subset hx
    have hkey : hasKeyIn B x = true :=
      hasKeyIn_iff.mpr (List.mem_map.mpr ⟨x, hxB, rfl⟩)
    have hxM : x ∈ merge_dataframes A B := by
      rw [mem_merge_iff hA hB, dropDupLast_append]
      exact List.mem_append_of_mem_right _ hx
    exact List.mem_filter.mpr ⟨hxM, hkey⟩
  · intro hx
    rcases List.mem_filter.mp hx with ⟨hxM, hkey⟩
    have hxD : x ∈ dropDupLast (A ++ B) := (mem_merge_iff hA hB).mp hxM
    rw [dropDupLast_append] at hxD
    rcases List.mem_append.mp hxD with h1 | h1
    · rcases List.mem_filter.mp h1 with ⟨_, hneg⟩
      rw [hkey] at hneg
      cases hneg
    · exact h1

/-- Re-merging the merged result with the same incoming batch changes
nothing (both inputs non-empty). -/
theorem merge_merge_eq {A B : List Record} (hA : A ≠ []) (hB : B ≠ []) :
    merge_dataframes (merge_dataframes A B) B = merge_dataframes A B := by
  have hM : merge_dataframes A B ≠ [] := merge_ne_nil hA hB
  have hMnd : keysNodup (merge_dataframes A B) := keysNodup_merge hA hB
  rw [merge_eq_of_ne hM hB]
  have hperm : List.Perm (sortLe keyLe (dropDupLast (merge_dataframes A B ++ B)))
      (merge_dataframes A B) :=
    (perm_sortLe keyLe _).trans (dropDupLast_merge_append_perm hA hB)
  refine eq_of_perm_of_pairwise keyLe hperm (sortedByKey_sortLe _)
    (sortedByKey_merge hA hB) ?_
  intro a b ha hb hab hba
  have hand : keysNodup (sortLe keyLe (dropDupLast (merge_dataframes A B ++ B))) :=
    keysNodup_of_perm hperm.symm hMnd
  exact eq_of_sameKey_of_keysNodup hand ha hb (keyLe_antisymm_key hab hba)

/-- Merging a deduplicated, sorted RecordSet with itself returns it
unchanged. -/
theorem merge_self_eq {A : List Record} (hnd : keysNodup A) (hs : sortedByKey A) :
    merge_dataframes A A = A := by
  by_cases hA : A = []
  · subst hA
    rfl
  · rw [merge_eq_of_ne hA hA, dropDupLast_append, dropDupLast_of_keysNodup hnd]
    have hfil : A.filter (fun x => !hasKeyIn A x) = [] := by
      rw [List.filter_eq_nil_iff]
      intro a ha
      have : hasKeyIn A a = true :=
        hasKeyIn_iff.mpr (List.mem_map.mpr ⟨a, ha, rfl⟩)
      simp [this]
    rw [hfil, List.nil_append]
    refine eq_of_perm_of_pairwise keyLe (perm_sortLe keyLe A) (sortedByKey_sortLe A) hs ?_
    intro a b ha hb hab hba
    have hand : keysNodup (sortLe keyLe A) :=
      keysNodup_of_perm (perm_sortLe keyLe A).symm hnd
    exact eq_of_sameKey_of_keysNodup hand ha hb (keyLe_antisymm_key hab hba)

theorem merge_nil_left (B : List Record) : merge_dataframes [] B = B := rfl

theorem merge_nil_right (A : List Record) : merge_dataframes A [] = A := by
  by_cases hA : A = []
  · subst hA
    rfl
  · simp [merge_dataframes, hA]

/-- A record of the incoming batch always survives into the merged result
(no later row of the concatenation can shadow it when the incoming batch has
pairwise-distinct keys). -/
theorem mem_merge_of_mem_incoming {A B : List Record} (hA : A ≠ []) (hB : B ≠ [])
    (hBnd : keysNodup B) {r : Record} (hr : r ∈ B) :
    r ∈ merge_dataframes A B := by
  rcases List.append_of_mem hr with ⟨B₁, B₂, rfl⟩
  have hBnd' : (B₁.map recKey ++ (r :: B₂).map recKey).Nodup := by
    have := hBnd
    rwa [keysNodup, List.map_append] at this
  have h1 : ((r :: B₂).map recKey).Nodup :=
    List.Nodup.sublist (List.sublist_append_right _ _) hBnd'
  rw [List.map_cons, List.nodup_cons] at h1
  have hno : ∀ t ∈ B₂, recKey t ≠ recKey r := by
    intro t ht hc
    exact h1.1 (List.mem_map.mpr ⟨t, ht, hc⟩)
  rw [mem_merge_iff hA hB]
  have hassoc : A ++ (B₁ ++ r :: B₂) = (A ++ B₁) ++ r :: B₂ := by
    simp [List.append_assoc]
  rw [hassoc]
  exact mem_dropDupLast_of_no_later _ _ _ hno

/-- Claim C1: for non-empty inputs whose incoming batch satisfies the
RecordSet identity invariant, `merge_dataframes` yields exactly one record
for every `(Date, Timme)` key occurring in either input and no record at any
other key, and at every key of the incoming batch the surviving record is
the incoming one — in particular incoming overrides existing on key
collision (last-write-wins). -/
theorem claim_C1_merge_override (A B : List Record) (k : Nat × Nat) (r s : Record)
    (hA : A ≠ []) (hB : B ≠ []) (hBnd : keysNodup B) :
    countKey (merge_dataframes A B) k = (if k ∈ (A ++ B).map recKey then 1 else 0)
    ∧ (r ∈ B → r ∈ merge_dataframes A B)
    ∧ (r ∈ B → s ∈ merge_dataframes A B → recKey s = recKey r → s = r) := by
  refine ⟨?_, fun hr => mem_merge_of_mem_incoming hA hB hBnd hr, ?_⟩
  · rw [merge_eq_of_ne hA hB]
    have hcnt : countKey (sortLe keyLe (dropDupLast (A ++ B))) k
        = countKey (dropDupLast (A ++ B)) k :=
      (perm_sortLe keyLe _).countP_eq _
    rw [hcnt, countKey_dropDupLast]
  · intro hr hs hk
    exact eq_of_sameKey_of_keysNodup (keysNodup_merge hA hB) hs
      (mem_merge_of_mem_incoming hA hB hBnd hr) hk

/-- Witness for C1 at concrete data: existing holds `(0,0) ↦ 1`, incoming
holds `(0,0) ↦ 2` and `(1,0) ↦ 3`; the merged set keeps one record per key
and the `(0,0)` record is the incoming one. -/
theorem claim_C1_witness :
    countKey (merge_dataframes [Record.mk 0 0 1] [Record.mk 0 0 2, Record.mk 1 0 3]) (0, 0) =
      (if (0, 0) ∈ (([Record.mk 0 0 1] ++ [Record.mk 0 0 2, Record.mk 1 0 3]).map recKey)
        then 1 else 0)
    ∧ (Record.mk 0 0 2 ∈ [Record.mk 0 0 2, Record.mk 1 0 3] →
        Record.mk 0 0 2 ∈ merge_dataframes [Record.mk 0 0 1] [Record.mk 0 0 2, Record.mk 1 0 3])
    ∧ (Record.mk 0 0 2 ∈ [Record.mk 0 0 2, Record.mk 1 0 3] →
        Record.mk 0 0 1 ∈ merge_dataframes [Record.mk 0 0 1] [Record.mk 0 0 2, Record.mk 1 0 3] →
        recKey (Record.mk 0 0 1) = recKey (Record.mk 0 0 2) →
        Record.mk 0 0 1 = Record.mk 0 0 2) :=
  claim_C1_merge_override [Record.mk 0 0 1] [Record.mk 0 0 2, Record.mk 1 0 3] (0, 0)
    (Record.mk 0 0 2) (Record.mk 0 0 1) (by decide) (by decide) (by decide)

/-- Claim C2 (amended): the merge of two non-empty inputs is sorted
non-decreasingly in `(Date, Timme)` even when the inputs are internally
unsorted; when one input is empty the other is returned unchanged, so an
unsorted non-empty input passes through unsorted. -/
theorem claim_C2_merge_sorted (A B : List Record) :
    (A ≠ [] → B ≠ [] → sortedByKey (merge_dataframes A B))
    ∧ merge_dataframes [] B = B
    ∧ merge_dataframes A [] = A :=
  ⟨fun hA hB => sortedByKey_merge hA hB, merge_nil_left B, merge_nil_right A⟩

/-- Counterexample to C2 as stated: merging an empty existing set with an
internally unsorted incoming batch returns the batch unchanged, hence
unsorted. -/
theorem claim_C2_counterexample :
    ¬ sortedByKey (merge_dataframes [] [⟨1, 0, 0⟩, ⟨0, 0, 0⟩]) := by decide

/-- Witness for C2 at concrete data. -/
theorem claim_C2_witness :
    sortedByKey (merge_dataframes [⟨1, 0, 0⟩] [⟨0, 0, 5⟩])
    ∧ merge_dataframes [] [⟨1, 0, 0⟩] = [⟨1, 0, 0⟩]
    ∧ merge_dataframes [⟨1, 0, 0⟩] [] = [⟨1, 0, 0⟩] :=
  ⟨(claim_C2_merge_sorted [Record.mk 1 0 0] [Record.mk 0 0 5]).1 (by decide) (by decide),
   (claim_C2_merge_sorted [Record.mk 1 0 0] [Record.mk 1 0 0]).2.1,
   (claim_C2_merge_sorted [Record.mk 1 0 0] [Record.mk 1 0 0]).2.2⟩

/-- Claim C3 (amended): `merge(merge(A,B),B) = merge(A,B)` holds whenever
`A` is non-empty, or when `A` is empty but `B` itself satisfies the
canonical RecordSet invariants (deduplicated keys, sorted); and
`merge(A,A) = A` for every deduplicated, sorted `A`. -/
theorem claim_C3_merge_idempotent (A B : List Record) :
    ((A ≠ [] ∨ (keysNodup B ∧ sortedByKey B)) →
      merge_dataframes (merge_dataframes A B) B = merge_dataframes A B)
    ∧ (keysNodup A → sortedByKey A → merge_dataframes A A = A) := by
  constructor
  · intro h
    by_cases hB : B = []
    · subst hB
      rw [merge_nil_right, merge_nil_right]
    · by_cases hA : A = []
      · subst hA
        rcases h with h | ⟨hnd, hs⟩
        · exact absurd rfl h
        · rw [merge_nil_left]
          exact merge_self_eq hnd hs
      · exact merge_merge_eq hA hB
  · exact fun hnd hs => merge_self_eq hnd hs

/-- Counterexample to C3 as stated: with an empty existing set and an
unsorted incoming batch, re-merging re-sorts, so
`merge(merge(A,B),B) ≠ merge(A,B)`. -/
theorem claim_C3_counterexample :
    merge_dataframes (merge_dataframes [] [⟨1, 0, 0⟩, ⟨0, 0, 0⟩]) [⟨1, 0, 0⟩, ⟨0, 0, 0⟩]
      ≠ merge_dataframes [] [⟨1, 0, 0⟩, ⟨0, 0, 0⟩] := by decide

/-- Witness for C3 at concrete data. -/
theorem claim_C3_witness :
    merge_dataframes (merge_dataframes [⟨0, 0, 1⟩] [⟨0, 1, 2⟩]) [⟨0, 1, 2⟩]
      = merge_dataframes [⟨0, 0, 1⟩] [⟨0, 1, 2⟩]
    ∧ merge_dataframes [⟨0, 0, 1⟩, ⟨0, 1, 2⟩] [⟨0, 0, 1⟩, ⟨0, 1, 2⟩]
      = [⟨0, 0, 1⟩, ⟨0, 1, 2⟩] :=
  ⟨(claim_C3_merge_idempotent [Record.mk 0 0 1] [Record.mk 0 1 2]).1 (Or.inl (by decide)),
   (claim_C3_merge_idempotent [Record.mk 0 0 1, Record.mk 0 1 2]
     [Record.mk 0 0 1, Record.mk 0 1 2]).2 (by decide) (by decide)⟩

/-! ### The quality-check DataFrame model (`data_quality_check.py`) -/

/-- One cell of the quality-check DataFrame.  `null` is a pandas NaN;
`date d` is a date string that `pd.to_datetime` parses to the day number
`d`; `nat n` is an integer cell (as in the `Timme` hour column); `bad` is a
non-null string that fails date parsing.  Numeric cells never occur in the
`Date` column of scraped data, so a `nat` cell found there is modelled as
failing date parsing as well. -/
inductive Cell where
  | null
  | date (d : Int)
  | nat (n : Nat)
  | bad
deriving DecidableEq, Repr

/-- The loaded DataFrame of `DataQualityChecker`: a row count plus named
columns, each column holding one cell per row in a well-formed frame. -/
structure QDF where
  nrows : Nat
  cols : List (String × List Cell)

/-- Does `pd.to_datetime` raise on this `Date` cell?  It raises on non-null
unparseable strings; NaN parses to NaT without raising. -/
def isBadDate : Cell → Bool
  | Cell.bad => true
  | Cell.nat _ => true
  | _ => false

/-- The parsed value of a `Date` cell: a day number, or `none` for the NaT
produced from a NaN cell. -/
def cellDate : Cell → Option Int
  | Cell.date d => some d
  | _ => none

def listMinI : List Int → Int
  | [] => 0
  | x :: xs => xs.foldl min x

def listMaxI : List Int → Int
  | [] => 0
  | x :: xs => xs.foldl max x

/-- `pd.date_range(mn, mx, freq='D')`: the ascending list of day numbers
from `mn` to `mx` inclusive. -/
def dateRange (mn mx : Int) : List Int :=
  (List.range (mx + 1 - mn).toNat).map (fun i : Nat => mn + (i : Int))

/-- `DataQualityChecker.check_date_continuity`: empty frame or absent
`Date` column yields `[]`; `pd.to_datetime(unique(Date))` raising (any
unparseable cell) is caught and yields `[]`; NaT values coming from NaN
cells drop out of the min/max and the set difference (an all-NaT column
makes `date_range` raise, also caught as `[]`, folded into the `vals = []`
test below together with the source's `len(dates) == 0` guard); otherwise
the sorted set difference between the full day range and the observed
dates. -/
def check_date_continuity (df : QDF) : List Int :=
  if df.nrows = 0 then []
  else
    match df.cols.lookup "Date" with
    | none => []
    | some cells =>
      let uniq := cells.dedup
      if uniq.any isBadDate then []
      else
        let vals := uniq.filterMap cellDate
        if vals = [] then []
        else
          (dateRange (listMinI vals) (listMaxI vals)).filter
            (fun d => decide (d ∉ vals))

/-- `DataQualityChecker.check_duplicates`: with both key columns present,
`duplicated(subset=['Date','Timme'], keep=False).sum()` counts every row
whose `(Date, Timme)` pair occurs at least twice; otherwise 0. -/
def check_duplicates (df : QDF) : Nat :=
  if df.nrows = 0 then 0
  else
    match df.cols.lookup "Date", df.cols.lookup "Timme" with
    | some dc, some tc =>
      let pairs := dc.zip tc
      pairs.countP (fun p => decide (2 ≤ pairs.countP (fun q => decide (q = p))))
    | _, _ => 0

/-- `DataQualityChecker.check_missing_values`: per column, the number of
null cells, with columns of zero null count omitted from the mapping. -/
def check_missing_values (df : QDF) : List (String × Nat) :=
  if df.nrows = 0 then []
  else
    df.cols.filterMap (fun c =>
      let n := c.2.countP (fun x => decide (x = Cell.null))
      if 0 < n then some (c.1, n) else none)

/-- The mapping the spec describes for `missing_values` (written from the
spec's words, for comparison with `check_missing_values`): every column
present paired with its count of null-or-unparseable cells. -/
def specMissingValuesMapping (df : QDF) : List (String × Nat) :=
  df.cols.map (fun c =>
    (c.1, c.2.countP (fun x => decide (x = Cell.null) || decide (x = Cell.bad))))

def cellRank : Cell → Nat
  | Cell.null => 0
  | Cell.date _ => 1
  | Cell.nat _ => 2
  | Cell.bad => 3

def cellVal : Cell → Int
  | Cell.date d => d
  | Cell.nat n => (n : Int)
  | _ => 0

/-- The order in which `groupby` emits its group keys (ascending by value);
only the relative order of parseable date keys is ever observable in the
claims, the rest of the order is presentation. -/
def cellLe (a b : Cell) : Bool :=
  decide (cellRank a < cellRank b) ||
    (decide (cellRank a = cellRank b) && decide (cellVal a ≤ cellVal b))

/-- `DataQualityChecker.check_data_gaps`: group rows by their raw `Date`
value (`groupby` drops NaN keys and emits keys in ascending order), count
rows per key, and report `(date, count, 24 - count)` for every key with
fewer than 24 rows. -/
def check_data_gaps (df : QDF) : List (Cell × Nat × Nat) :=
  if df.nrows = 0 then []
  else
    match df.cols.lookup "Date" with
    | none => []
    | some cells =>
      let nonnull := cells.filter (fun c => decide (c ≠ Cell.null))
      let keys := sortLe cellLe nonnull.dedup
      keys.filterMap (fun k =>
        let c := cells.countP (fun x => decide (x = k))
        if c < 24 then some (k, c, 24 - c) else none)

/-- Round-half-to-even to an integer: the semantics of Python's `round` on
the exact rational value of the coverage quotient. -/
def roundHalfEven (x : ℚ) : ℤ :=
  if x - (⌊x⌋ : ℚ) < 1 / 2 then ⌊x⌋
  else if 1 / 2 < x - (⌊x⌋ : ℚ) then ⌊x⌋ + 1
  else if ⌊x⌋ % 2 = 0 then ⌊x⌋ else ⌊x⌋ + 1

/-- Python `round(x, 2)`. -/
def round2 (x : ℚ) : ℚ := (roundHalfEven (x * 100) : ℚ) / 100

/-- Is this `Date` cell a parsed date lying in `[start, now]`?  NaT (from a
NaN cell) compares false against both bounds, excluding the row. -/
def inWindow (start now : Int) (c : Cell) : Bool :=
  match c with
  | Cell.date d => decide (start ≤ d) && decide (d ≤ now)
  | _ => false

/-- `DataQualityChecker.calculate_coverage`: expected slot count is
`len(pd.date_range(now - days_back, now, 'D')) * 24 = (days_back + 1) * 24`;
actual is the number of rows whose parsed date falls in the inclusive
window; the result is `round(actual / expected * 100, 2)`.  An empty frame
or absent `Date` column yields `0.0`, and `pd.to_datetime` raising on an
unparseable cell is caught and yields `0.0`. -/
def calculate_coverage (days_back : Nat) (now : Int) (df : QDF) : ℚ :=
  if df.nrows = 0 then 0
  else
    match df.cols.lookup "Date" with
    | none => 0
    | some cells =>
      if cells.any isBadDate then 0
      else
        let expected : Nat := (days_back + 1) * 24
        let actual : Nat := cells.countP (inWindow (now - (days_back : Int)) now)
        if 0 < expected then round2 (((actual : ℚ) / (expected : ℚ)) * 100)
        else 0

/-- The metrics dictionary filled in by `run_all_checks` (the fields that
feed the pass/fail verdict; the value-range statistics are informational
only and gate nothing). -/
structure Metrics where
  missing_dates : List Int
  duplicate_records : Nat
  missing_values : List (String × Nat)
  data_gaps : List (Cell × Nat × Nat)
  coverage_percentage : ℚ
  issues_found : Bool

/-- `DataQualityChecker.run_all_checks`: each gating check runs in turn and
`issues_found` is set when any of them fails (non-empty missing dates,
positive duplicate count, any missing values, any incomplete day, or
coverage below 90). -/
def run_all_checks (now : Int) (df : QDF) : Metrics :=
  if df.nrows = 0 then
    { missing_dates := [], duplicate_records := 0, missing_values := [],
      data_gaps := [], coverage_percentage := 0, issues_found := true }
  else
    let md := check_date_continuity df
    let dup := check_duplicates df
    let mv := check_missing_values df
    let gaps := check_data_gaps df
    let cov := calculate_coverage 30 now df
    { missing_dates := md, duplicate_records := dup, missing_values := mv,
      data_gaps := gaps, coverage_percentage := cov,
      issues_found := decide (md ≠ []) || decide (0 < dup) || decide (mv ≠ []) ||
        decide (gaps ≠ []) || decide (cov < 90) }

/-- The observable outcome of one run of the validation entry point. -/
structure RunResult where
  exitCode : Nat
  jsonSaved : Bool
  htmlSaved : Bool
  consoleSummary : Bool
deriving DecidableEq, Repr

/-- `main` of `data_quality_check.py`: an empty (or unloadable) dataset
exits with status 1 before any report or summary is produced; otherwise the
checks run, the console summary is printed, `save_reports` writes the JSON
summary and the HTML report, and the exit status is 1 exactly when
`issues_found` is set, else 0. -/
def main (now : Int) (df : QDF) : RunResult :=
  if df.nrows = 0 then
    { exitCode := 1, jsonSaved := false, htmlSaved := false, consoleSummary := false }
  else
    { exitCode := if (run_all_checks now df).issues_found then 1 else 0,
      jsonSaved := true, htmlSaved := true, consoleSummary := true }

/-! ### Backup rotation (`save_master_data` of `github_actions_runner.py`) -/

/-- The file-system state seen by `save_master_data`: whether the master
CSV exists and the (timestamp names of the) backups currently on disk. -/
structure FSState where
  masterExists : Bool
  backups : List Nat
deriving DecidableEq, Repr

/-- `backups[-n:]`: the most recent `n` entries of an ascending list. -/
def keepLast (n : Nat) (l : List Nat) : List Nat := l.drop (l.length - n)

/-- `GitHubActionsDataManager.save_master_data`, restricted to its effect on
the backup directory: if a master file exists, copy it to a new backup named
by the current timestamp `t`, enumerate `sorted(glob('backup_*.csv'))`
(fixed-width timestamps sort chronologically), and when more than five
backups exist delete all but the last five; a first save creates no
backup. -/
def save_master_data (s : FSState) (t : Nat) : FSState :=
  if s.masterExists then
    let bs := sortLe Nat.ble (t :: s.backups)
    { masterExists := true,
      backups := if 5 < bs.length then keepLast 5 bs else bs }
  else
    { masterExists := true, backups := s.backups }

/-! ### Date-continuity analysis (claim C4) -/

theorem foldl_min_le_init (xs : List Int) (acc : Int) : xs.foldl min acc ≤ acc := by
  induction xs generalizing acc with
  | nil => exact le_refl _
  | cons x xs ih =>
    calc (x :: xs).foldl min acc = xs.foldl min (min acc x) := rfl
    _ ≤ min acc x := ih _
    _ ≤ acc := min_le_left _ _

theorem foldl_min_le_mem {xs : List Int} {x : Int} (hx : x ∈ xs) (acc : Int) :
    xs.foldl min acc ≤ x := by
  induction xs generalizing acc with
  | nil => cases hx
  | cons y ys ih =>
    rcases List.mem_cons.mp hx with rfl | hx
    · calc (x :: ys).foldl min acc = ys.foldl min (min acc x) := rfl
      _ ≤ min acc x := foldl_min_le_init _ _
      _ ≤ x := min_le_right _ _
    · exact ih hx _

theorem listMinI_le {xs : List Int} {x : Int} (hx : x ∈ xs) : listMinI xs ≤ x := by
  cases xs with
  | nil => cases hx
  | cons y ys =>
    rcases List.mem_cons.mp hx with rfl | hx
    · exact foldl_min_le_init _ _
    · exact foldl_min_le_mem hx _

theorem init_le_foldl_max (xs : List Int) (acc : Int) : acc ≤ xs.foldl max acc := by
  induction xs generalizing acc with
  | nil => exact le_refl _
  | cons x xs ih =>
    calc acc ≤ max acc x := le_max_left _ _
    _ ≤ xs.foldl max (max acc x) := ih _
    _ = (x :: xs).foldl max acc := rfl

theorem mem_le_foldl_max {xs : List Int} {x : Int} (hx : x ∈ xs) (acc : Int) :
    x ≤ xs.foldl max acc := by
  induction xs generalizing acc with
  | nil => cases hx
  | cons y ys ih =>
    rcases List.mem_cons.mp hx with rfl | hx
    · calc x ≤ max acc x := le_max_right _ _
      _ ≤ ys.foldl max (max acc x) := init_le_foldl_max _ _
      _ = (x :: ys).foldl max acc := rfl
    · exact ih hx _

theorem le_listMaxI {xs : List Int} {x : Int} (hx : x ∈ xs) : x ≤ listMaxI xs := by
  cases xs with
  | nil => cases hx
  | cons y ys =>
    rcases List.mem_cons.mp hx with rfl | hx
    · exact init_le_foldl_max _ _
    · exact mem_le_foldl_max hx _

theorem mem_dateRange {mn mx d : Int} : d ∈ dateRange mn mx ↔ mn ≤ d ∧ d ≤ mx := by
  unfold dateRange
  constructor
  · intro h
    rcases List.mem_map.mp h with ⟨i, hi, hd⟩
    rw [List.mem_range] at hi
    omega
  · intro h
    refine List.mem_map.mpr ⟨(d - mn).toNat, ?_, ?_⟩
    · rw [List.mem_range]
      omega
    · omega

theorem pairwise_dateRange (mn mx : Int) :
    (dateRange mn mx).Pairwise (fun a b => a < b) := by
  unfold dateRange
  rw [List.pairwise_map]
  exact (List.pairwise_lt_range _).imp (by omega)

/-- Claim C4 (amended): an empty frame yields `[]`; for a non-empty frame
whose `Date` column has no unparseable (non-null) entry and at least one
parseable date, the result holds exactly the day numbers between the
minimum and maximum observed dates (inclusive) that are not observed, in
strictly ascending order.  `listMinI`/`listMaxI` of the distinct observed
dates are genuinely their minimum and maximum by `listMinI_le` and
`le_listMaxI`. -/
theorem claim_C4_date_continuity (df : QDF) (cells : List Cell) (d : Int)
    (hcol : df.cols.lookup "Date" = some cells) (hnr : df.nrows ≠ 0)
    (hgood : ∀ c ∈ cells, isBadDate c = false)
    (hvals : cells.dedup.filterMap cellDate ≠ []) :
    (∀ df₀ : QDF, df₀.nrows = 0 → check_date_continuity df₀ = [])
    ∧ (d ∈ check_date_continuity df ↔
        (listMinI (cells.dedup.filterMap cellDate) ≤ d ∧
         d ≤ listMaxI (cells.dedup.filterMap cellDate) ∧
         d ∉ cells.dedup.filterMap cellDate))
    ∧ (check_date_continuity df).Pairwise (fun a b => a < b) := by
  have hbad : cells.dedup.any isBadDate = false := by
    rw [List.any_eq_false]
    intro c hc
    rw [hgood c (List.mem_dedup.mp hc)]
    exact Bool.false_ne_true
  have heq : check_date_continuity df =
      (dateRange (listMinI (cells.dedup.filterMap cellDate))
        (listMaxI (cells.dedup.filterMap cellDate))).filter
        (fun x => decide (x ∉ cells.dedup.filterMap cellDate)) := by
    unfold check_date_continuity
    rw [if_neg hnr, hcol]
    simp only [hbad, Bool.false_eq_true, if_false]
    rw [if_neg hvals]
  refine ⟨?_, ?_, ?_⟩
  · intro df₀ h0
    unfold check_date_continuity
    rw [if_pos h0]
  · rw [heq, List.mem_filter, mem_dateRange, decide_eq_true_eq]
    tauto
  · rw [heq]
    exact List.Pairwise.sublist (List.filter_sublist _) (pairwise_dateRange _ _)

/-- Counterexample to C4 as stated: a `Date` column holding parseable dates
0 and 2 plus one unparseable string makes `pd.to_datetime` raise, so the
check returns `[]` even though day 1 is missing from the observed span. -/
theorem claim_C4_counterexample :
    check_date_continuity
        ⟨3, [("Date", [Cell.date 0, Cell.bad, Cell.date 2])]⟩ = []
    ∧ (1 : Int) ∉ [Cell.date 0, Cell.bad, Cell.date 2].filterMap cellDate
    ∧ listMinI ([Cell.date 0, Cell.bad, Cell.date 2].filterMap cellDate) ≤ 1
    ∧ (1 : Int) ≤ listMaxI ([Cell.date 0, Cell.bad, Cell.date 2].filterMap cellDate) := by
  refine ⟨?_, by decide, by decide, by decide⟩
  rfl

/-- Witness for C4: dates 0 and 2 observed on a clean column, day 1 is
reported as missing. -/
theorem claim_C4_witness :
    (∀ df₀ : QDF, df₀.nrows = 0 → check_date_continuity df₀ = [])
    ∧ ((1 : Int) ∈ check_date_continuity
          ⟨3, [("Date", [Cell.date 0, Cell.date 2, Cell.date 2])]⟩ ↔
        (listMinI ([Cell.date 0, Cell.date 2, Cell.date 2].dedup.filterMap cellDate) ≤ 1 ∧
         (1 : Int) ≤ listMaxI ([Cell.date 0, Cell.date 2, Cell.date 2].dedup.filterMap cellDate) ∧
         (1 : Int) ∉ [Cell.date 0, Cell.date 2, Cell.date 2].dedup.filterMap cellDate))
    ∧ (check_date_continuity
        ⟨3, [("Date", [Cell.date 0, Cell.date 2, Cell.date 2])]⟩).Pairwise
        (fun a b => a < b) :=
  claim_C4_date_continuity ⟨3, [("Date", [Cell.date 0, Cell.date 2, Cell.date 2])]⟩
    [Cell.date 0, Cell.date 2, Cell.date 2] 1 (by decide) (by decide)
    (by decide) (by decide)

/-! ### Incomplete-day analysis (claim C5) -/

/-- The optional `(date, hours_found, hours_missing)` entry of
`check_data_gaps` for one group key, given the per-key row count `cnt`. -/
def gapEntry (cnt : Cell → Nat) (k : Cell) : Option (Cell × Nat × Nat) :=
  if cnt k < 24 then some (k, cnt k, 24 - cnt k) else none

/-- Counting the entries that `check_data_gaps` emits for one key: over a
duplicate-free key list, exactly one entry appears for a key with
under-count, none otherwise. -/
theorem countP_gapEntries (cnt : Cell → Nat) (d : Int) :
    ∀ (keys : List Cell), keys.Nodup →
      ((keys.filterMap (gapEntry cnt)).countP
        (fun e => decide (e.1 = Cell.date d)))
      = if Cell.date d ∈ keys ∧ cnt (Cell.date d) < 24 then 1 else 0 := by
  intro keys
  induction keys with
  | nil => simp
  | cons k ks ih =>
    intro hnd
    rcases List.nodup_cons.mp hnd with ⟨hkn, hnd2⟩
    by_cases hc : cnt k < 24
    · have hf : gapEntry cnt k = some (k, cnt k, 24 - cnt k) := by
        unfold gapEntry
        rw [if_pos hc]
      rw [List.filterMap_cons_some hf]
      by_cases hk : k = Cell.date d
      · subst hk
        rw [List.countP_cons_of_pos _ _ (by simp)]
        rw [ih hnd2]
        simp [hkn, hc]
      · have hdk : ¬Cell.date d = k := fun hh => hk hh.symm
        rw [List.countP_cons_of_neg _ _ (by simp [hk])]
        rw [ih hnd2]
        simp [hdk]
    · have hf : gapEntry cnt k = none := by
        unfold gapEntry
        rw [if_neg hc]
      rw [List.filterMap_cons_none hf]
      rw [ih hnd2]
      by_cases hk : k = Cell.date d
      · subst hk
        simp [hkn, hc]
      · have hdk : ¬Cell.date d = k := fun hh => hk hh.symm
        simp [hdk]

/-- Claim C5: `check_data_gaps` reports exactly one `(date, c, 24 - c)`
entry for each date value with row count `c < 24`, and no entry for a date
with 24 or more rows. -/
theorem claim_C5_data_gaps (df : QDF) (cells : List Cell) (d : Int)
    (hcol : df.cols.lookup "Date" = some cells) (hwf : cells.length = df.nrows) :
    ((check_data_gaps df).countP (fun e => decide (e.1 = Cell.date d)) =
      if Cell.date d ∈ cells ∧ cells.countP (fun x => decide (x = Cell.date d)) < 24
      then 1 else 0)
    ∧ (∀ e ∈ check_data_gaps df, e.1 = Cell.date d →
        e = (Cell.date d, cells.countP (fun x => decide (x = Cell.date d)),
             24 - cells.countP (fun x => decide (x = Cell.date d)))) := by
  by_cases hnr : df.nrows = 0
  · have hcells : cells = [] := by
      rw [hnr] at hwf
      exact List.length_eq_zero.mp hwf
    subst hcells
    have hgaps : check_data_gaps df = [] := by
      unfold check_data_gaps
      rw [if_pos hnr]
    rw [hgaps]
    constructor
    · simp
    · intro e he
      cases he
  · have hgaps : check_data_gaps df =
        (sortLe cellLe ((cells.filter (fun c => decide (c ≠ Cell.null))).dedup)).filterMap
          (gapEntry (fun k => cells.countP (fun x => decide (x = k)))) := by
      unfold check_data_gaps gapEntry
      rw [if_neg hnr, hcol]
    have hkeysnd : (sortLe cellLe ((cells.filter
        (fun c => decide (c ≠ Cell.null))).dedup)).Nodup :=
      (perm_sortLe cellLe _).nodup_iff.mpr (List.nodup_dedup _)
    have hmemkeys : Cell.date d ∈
        sortLe cellLe ((cells.filter (fun c => decide (c ≠ Cell.null))).dedup) ↔
        Cell.date d ∈ cells := by
      rw [(perm_sortLe cellLe _).mem_iff, List.mem_dedup, List.mem_filter]
      simp
    constructor
    · rw [hgaps, countP_gapEntries _ d _ hkeysnd]
      simp only [hmemkeys]
    · intro e he h1
      rw [hgaps] at he
      rcases List.mem_filterMap.mp he with ⟨k, _, hfk⟩
      unfold gapEntry at hfk
      by_cases hc : cells.countP (fun x => decide (x = k)) < 24
      · rw [if_pos hc] at hfk
        have hek : e.1 = k := by
          rw [← Option.some_inj.mp hfk]
        rw [hek] at h1
        subst h1
        rw [← Option.some_inj.mp hfk]
      · rw [if_neg hc] at hfk
        cases hfk

/-- Witness for C5: a two-row frame with both rows dated day 5 yields
exactly one gap entry `(5, 2, 22)`. -/
theorem claim_C5_witness :
    ((check_data_gaps ⟨2, [("Date", [Cell.date 5, Cell.date 5])]⟩).countP
        (fun e => decide (e.1 = Cell.date 5)) =
      if Cell.date 5 ∈ [Cell.date 5, Cell.date 5] ∧
         [Cell.date 5, Cell.date 5].countP (fun x => decide (x = Cell.date 5)) < 24
      then 1 else 0)
    ∧ (∀ e ∈ check_data_gaps ⟨2, [("Date", [Cell.date 5, Cell.date 5])]⟩,
        e.1 = Cell.date 5 →
        e = (Cell.date 5,
             [Cell.date 5, Cell.date 5].countP (fun x => decide (x = Cell.date 5)),
             24 - [Cell.date 5, Cell.date 5].countP
               (fun x => decide (x = Cell.date 5)))) :=
  claim_C5_data_gaps ⟨2, [("Date", [Cell.date 5, Cell.date 5])]⟩
    [Cell.date 5, Cell.date 5] 5 (by decide) (by decide)

/-! ### Coverage analysis (claim C6) -/

theorem roundHalfEven_bounds (x : ℚ) :
    ⌊x⌋ ≤ roundHalfEven x ∧ roundHalfEven x ≤ ⌊x⌋ + 1 := by
  unfold roundHalfEven
  split_ifs <;> omega

theorem round2_nonneg {x : ℚ} (hx : 0 ≤ x) : 0 ≤ round2 x := by
  unfold round2
  have h1 : (0 : ℤ) ≤ ⌊x * 100⌋ := Int.floor_nonneg.mpr (by positivity)
  have h2 : (0 : ℤ) ≤ roundHalfEven (x * 100) :=
    le_trans h1 (roundHalfEven_bounds _).1
  have h3 : (0 : ℚ) ≤ (roundHalfEven (x * 100) : ℚ) := by exact_mod_cast h2
  positivity

theorem round2_le_100 {x : ℚ} (hx : x ≤ 100) : round2 x ≤ 100 := by
  unfold round2
  have hx' : x * 100 ≤ 10000 := by linarith
  have hfloor_le : ⌊x * 100⌋ ≤ 10000 := by
    have h1 : ⌊x * 100⌋ ≤ ⌊(10000 : ℚ)⌋ := Int.floor_le_floor hx'
    simpa using h1
  have hres : roundHalfEven (x * 100) ≤ 10000 := by
    by_cases hf : ⌊x * 100⌋ = 10000
    · have hcond : x * 100 - (⌊x * 100⌋ : ℚ) < 1 / 2 := by
        rw [hf]
        push_cast
        linarith
      unfold roundHalfEven
      rw [if_pos hcond, hf]
    · have h1 : ⌊x * 100⌋ + 1 ≤ 10000 := by omega
      exact le_trans (roundHalfEven_bounds _).2 h1
  have h4 : (roundHalfEven (x * 100) : ℚ) ≤ 10000 := by exact_mod_cast hres
  linarith

/-- Claim C6 (amended): an empty frame yields 0; for a frame with a `Date`
column free of unparseable entries, the coverage equals
`round(actual / expected * 100, 2)` with `expected = (days_back + 1) * 24`
and `actual` the number of rows dated inside the inclusive trailing window;
the result is never negative, and is at most 100 whenever
`actual ≤ expected` — but nothing clamps it when the window holds more rows
than slots. -/
theorem claim_C6_coverage (days_back : Nat) (now : Int) (df : QDF)
    (cells : List Cell)
    (hcol : df.cols.lookup "Date" = some cells) (hnr : df.nrows ≠ 0)
    (hgood : ∀ c ∈ cells, isBadDate c = false) :
    (∀ df₀ : QDF, df₀.nrows = 0 → calculate_coverage days_back now df₀ = 0)
    ∧ calculate_coverage days_back now df =
        round2 (((cells.countP (inWindow (now - (days_back : Int)) now) : ℚ) /
          (((days_back + 1) * 24 : Nat) : ℚ)) * 100)
    ∧ (∀ df₀ : QDF, 0 ≤ calculate_coverage days_back now df₀)
    ∧ (cells.countP (inWindow (now - (days_back : Int)) now) ≤ (days_back + 1) * 24 →
        calculate_coverage days_back now df ≤ 100) := by
  have hbad : cells.any isBadDate = false := by
    rw [List.any_eq_false]
    intro c hc
    rw [hgood c hc]
    exact Bool.false_ne_true
  have hexp : 0 < (days_back + 1) * 24 := by positivity
  have heq : calculate_coverage days_back now df =
      round2 (((cells.countP (inWindow (now - (days_back : Int)) now) : ℚ) /
        (((days_back + 1) * 24 : Nat) : ℚ)) * 100) := by
    unfold calculate_coverage
    rw [if_neg hnr, hcol]
    simp only [hbad, Bool.false_eq_true, if_false]
    rw [if_pos hexp]
  refine ⟨?_, heq, ?_, ?_⟩
  · intro df₀ h0
    unfold calculate_coverage
    rw [if_pos h0]
  · intro df₀
    unfold calculate_coverage
    split
    · norm_num
    · split
      · norm_num
      · split
        · norm_num
        · dsimp only
          split <;> (apply round2_nonneg; positivity)
  · intro hle
    rw [heq]
    apply round2_le_100
    have he0 : (0 : ℚ) < (((days_back + 1) * 24 : Nat) : ℚ) := by
      exact_mod_cast hexp
    have hc : ((cells.countP (inWindow (now - (days_back : Int)) now) : ℚ)) ≤
        (((days_back + 1) * 24 : Nat) : ℚ) := by exact_mod_cast hle
    have hdiv : ((cells.countP (inWindow (now - (days_back : Int)) now) : ℚ) /
        (((days_back + 1) * 24 : Nat) : ℚ)) ≤ 1 := by
      rw [div_le_one he0]
      exact hc
    linarith

/-- Counterexample to C6 as stated: 745 rows all dated `now` give
`actual = 745 > 744 = expected`, so the coverage percentage exceeds 100 —
the return value is not confined to `[0, 100]`. -/
theorem claim_C6_counterexample :
    (100 : ℚ) <
      calculate_coverage 30 100 ⟨745, [("Date", List.replicate 745 (Cell.date 100))]⟩ := by
  have hcov :
      calculate_coverage 30 100 ⟨745, [("Date", List.replicate 745 (Cell.date 100))]⟩
        = round2 ((745 : ℚ) / 744 * 100) := by
    unfold calculate_coverage
    rw [if_neg (by norm_num)]
    have hlk : List.lookup "Date"
        (QDF.mk 745 [("Date", List.replicate 745 (Cell.date 100))]).cols
        = some (List.replicate 745 (Cell.date 100)) := rfl
    rw [hlk]
    simp only [List.any_replicate, List.countP_replicate]
    norm_num [isBadDate, inWindow]
  have hfl : ⌊(745 : ℚ) / 744 * 100 * 100⌋ = 10013 := by
    rw [Int.floor_eq_iff]
    constructor
    · push_cast
      norm_num
    · push_cast
      norm_num
  have hcond : (745 : ℚ) / 744 * 100 * 100 - (⌊(745 : ℚ) / 744 * 100 * 100⌋ : ℚ)
      < 1 / 2 := by
    rw [hfl]
    push_cast
    norm_num
  rw [hcov]
  unfold round2 roundHalfEven
  rw [if_pos hcond, hfl]
  norm_num

/-- Witness for C6: one record dated 10 days before `now = 100`, window of
31 days, coverage `round(1/744*100, 2)`; all four conjuncts of the amended
claim instantiated. -/
theorem claim_C6_witness :
    (∀ df₀ : QDF, df₀.nrows = 0 → calculate_coverage 30 100 df₀ = 0)
    ∧ calculate_coverage 30 100 ⟨1, [("Date", [Cell.date 90])]⟩ =
        round2 ((([Cell.date 90].countP (inWindow (100 - (30 : Int)) 100) : ℚ) /
          (((30 + 1) * 24 : Nat) : ℚ)) * 100)
    ∧ (∀ df₀ : QDF, 0 ≤ calculate_coverage 30 100 df₀)
    ∧ ([Cell.date 90].countP (inWindow (100 - (30 : Int)) 100) ≤ (30 + 1) * 24 →
        calculate_coverage 30 100 ⟨1, [("Date", [Cell.date 90])]⟩ ≤ 100) :=
  claim_C6_coverage 30 100 ⟨1, [("Date", [Cell.date 90])]⟩ [Cell.date 90]
    (by decide) (by decide) (by decide)

/-! ### Missing-value reporting (claim C7) -/

/-- Number of null cells in a column. -/
def nullCount (cs : List Cell) : Nat := cs.countP (fun x => decide (x = Cell.null))

/-- The optional mapping entry `check_missing_values` emits for one
column. -/
def mvEntry (c : String × List Cell) : Option (String × Nat) :=
  if 0 < nullCount c.2 then some (c.1, nullCount c.2) else none

theorem lookup_mvEntry_not_mem (n : String) :
    ∀ (cols : List (String × List Cell)), n ∉ cols.map Prod.fst →
      (cols.filterMap mvEntry).lookup n = none := by
  intro cols
  induction cols with
  | nil => intro _; rfl
  | cons c cols ih =>
    intro h
    simp only [List.map_cons, List.mem_cons] at h
    push_neg at h
    by_cases hc : 0 < nullCount c.2
    · rw [List.filterMap_cons_some (show mvEntry c = some (c.1, nullCount c.2) by
        rw [mvEntry, if_pos hc])]
      have hbeq : (n == c.1) = false := beq_eq_false_iff_ne.mpr h.1
      simp only [List.lookup, hbeq]
      exact ih h.2
    · rw [List.filterMap_cons_none (show mvEntry c = none by rw [mvEntry, if_neg hc])]
      exact ih h.2

theorem lookup_mvEntry (n : String) (cs : List Cell) :
    ∀ (cols : List (String × List Cell)), (cols.map Prod.fst).Nodup →
      (n, cs) ∈ cols →
      (cols.filterMap mvEntry).lookup n =
        (if 0 < nullCount cs then some (nullCount cs) else none) := by
  intro cols
  induction cols with
  | nil =>
    intro _ hmem
    cases hmem
  | cons c cols ih =>
    intro hnd hmem
    rw [List.map_cons, List.nodup_cons] at hnd
    rcases List.mem_cons.mp hmem with rfl | hmem
    · by_cases hc : 0 < nullCount cs
      · rw [List.filterMap_cons_some (show mvEntry (n, cs) = some (n, nullCount cs) by
          rw [mvEntry, if_pos hc])]
        simp only [List.lookup, beq_self_eq_true]
        rw [if_pos hc]
      · rw [List.filterMap_cons_none (show mvEntry (n, cs) = none by
          rw [mvEntry, if_neg hc])]
        rw [if_neg hc]
        exact lookup_mvEntry_not_mem n cols hnd.1
    · have hne : n ≠ c.1 := by
        intro hh
        exact hnd.1 (hh ▸ List.mem_map.mpr ⟨(n, cs), hmem, rfl⟩)
      have hbeq : (n == c.1) = false := beq_eq_false_iff_ne.mpr hne
      by_cases hc : 0 < nullCount c.2
      · rw [List.filterMap_cons_some (show mvEntry c = some (c.1, nullCount c.2) by
          rw [mvEntry, if_pos hc])]
        simp only [List.lookup, hbeq]
        exact ih hnd.2 hmem
      · rw [List.filterMap_cons_none (show mvEntry c = none by rw [mvEntry, if_neg hc])]
        exact ih hnd.2 hmem

/-- Claim C7 (amended): for a non-empty frame with distinct column names,
the mapping returned by `check_missing_values` carries an entry for a
column exactly when the column has at least one null cell, and that entry
is its null-cell count.  Unparseable non-null cells are not counted, and
zero-null columns are absent from the mapping. -/
theorem claim_C7_missing_values (df : QDF) (n : String) (cs : List Cell)
    (hnd : (df.cols.map Prod.fst).Nodup) (hmem : (n, cs) ∈ df.cols)
    (hnr : df.nrows ≠ 0) :
    (check_missing_values df).lookup n =
      (if 0 < nullCount cs then some (nullCount cs) else none) := by
  have heq : check_missing_values df = df.cols.filterMap mvEntry := by
    unfold check_missing_values mvEntry nullCount
    rw [if_neg hnr]
  rw [heq]
  exact lookup_mvEntry n cs df.cols hnd hmem

/-- Counterexample to C7 as stated: a one-row column holding a non-null
unparseable value has one null-or-unparseable entry, but
`check_missing_values` (which counts only `isnull`) returns the empty
mapping. -/
theorem claim_C7_counterexample :
    check_missing_values ⟨1, [("x", [Cell.bad])]⟩ = []
    ∧ specMissingValuesMapping ⟨1, [("x", [Cell.bad])]⟩ = [("x", 1)]
    ∧ check_missing_values ⟨1, [("x", [Cell.bad])]⟩ ≠
        specMissingValuesMapping ⟨1, [("x", [Cell.bad])]⟩ := by
  refine ⟨rfl, rfl, ?_⟩
  intro h
  rw [show check_missing_values ⟨1, [("x", [Cell.bad])]⟩ = [] from rfl] at h
  rw [show specMissingValuesMapping ⟨1, [("x", [Cell.bad])]⟩ = [("x", 1)] from rfl] at h
  cases h

/-- Witness for C7: a single column with one null cell maps to count 1. -/
theorem claim_C7_witness :
    (check_missing_values ⟨1, [("y", [Cell.null])]⟩).lookup "y" =
      (if 0 < nullCount [Cell.null] then some (nullCount [Cell.null]) else none) :=
  claim_C7_missing_values ⟨1, [("y", [Cell.null])]⟩ "y" [Cell.null]
    (by decide) (by decide) (by decide)

/-! ### Validation entry point (claim C8) -/

/-- Claim C8 (amended): a run that loads a non-empty dataset always writes
the JSON summary and the HTML report and prints the console summary, and
exits 0 exactly when no check failed; a run that cannot proceed (empty or
unloadable dataset) exits 1 before any artifact or summary is produced. -/
theorem claim_C8_exit_contract (df : QDF) (now : Int) :
    (df.nrows ≠ 0 →
      (main now df).jsonSaved = true ∧ (main now df).htmlSaved = true ∧
      (main now df).consoleSummary = true ∧
      ((main now df).exitCode = 0 ↔ (run_all_checks now df).issues_found = false))
    ∧ (df.nrows = 0 →
      (main now df).exitCode = 1 ∧ (main now df).jsonSaved = false ∧
      (main now df).htmlSaved = false ∧ (main now df).consoleSummary = false) := by
  constructor
  · intro h
    unfold main
    rw [if_neg h]
    refine ⟨rfl, rfl, rfl, ?_⟩
    by_cases hi : (run_all_checks now df).issues_found
    · simp [hi]
    · simp [hi]
  · intro h
    unfold main
    rw [if_pos h]
    exact ⟨rfl, rfl, rfl, rfl⟩

/-- Counterexample to C8 as stated: a run on an empty dataset produces no
JSON summary, no HTML report and no console summary — not every run
produces the report artifacts. -/
theorem claim_C8_counterexample :
    (main 0 ⟨0, []⟩).jsonSaved = false ∧ (main 0 ⟨0, []⟩).htmlSaved = false ∧
    (main 0 ⟨0, []⟩).consoleSummary = false ∧ (main 0 ⟨0, []⟩).exitCode = 1 :=
  ⟨rfl, rfl, rfl, rfl⟩

/-- Witness for C8 on a one-row dataset. -/
theorem claim_C8_witness :
    (main 0 ⟨1, [("Date", [Cell.date 0])]⟩).jsonSaved = true ∧
    (main 0 ⟨1, [("Date", [Cell.date 0])]⟩).htmlSaved = true ∧
    (main 0 ⟨1, [("Date", [Cell.date 0])]⟩).consoleSummary = true ∧
    ((main 0 ⟨1, [("Date", [Cell.date 0])]⟩).exitCode = 0 ↔
      (run_all_checks 0 ⟨1, [("Date", [Cell.date 0])]⟩).issues_found = false) :=
  (claim_C8_exit_contract ⟨1, [("Date", [Cell.date 0])]⟩ 0).1 (by decide)

/-! ### Absent key columns degrade gracefully (claim C10) -/

/-- Claim C10: with no `Date` column, `check_date_continuity` and
`check_data_gaps` return `[]` and `calculate_coverage` returns `0.0`; with
no `Date` or no `Timme` column, `check_duplicates` returns 0 — none of them
raises. -/
theorem claim_C10_missing_columns (df : QDF) (now : Int) :
    (df.nrows ≠ 0 → df.cols.lookup "Date" = none →
      check_date_continuity df = [] ∧ check_data_gaps df = [] ∧
      calculate_coverage 30 now df = 0)
    ∧ (df.cols.lookup "Date" = none ∨ df.cols.lookup "Timme" = none →
      check_duplicates df = 0) := by
  constructor
  · intro hnr hd
    refine ⟨?_, ?_, ?_⟩
    · unfold check_date_continuity
      rw [if_neg hnr, hd]
    · unfold check_data_gaps
      rw [if_neg hnr, hd]
    · unfold calculate_coverage
      rw [if_neg hnr, hd]
  · intro h
    unfold check_duplicates
    by_cases hnr : df.nrows = 0
    · rw [if_pos hnr]
    · rw [if_neg hnr]
      rcases h with h | h
      · rw [h]
      · rw [h]
        cases df.cols.lookup "Date" with
        | none => rfl
        | some dc => rfl

/-- Witness for C10: a one-row frame holding only a `Timme` column. -/
theorem claim_C10_witness :
    check_date_continuity ⟨1, [("Timme", [Cell.nat 0])]⟩ = []
    ∧ check_data_gaps ⟨1, [("Timme", [Cell.nat 0])]⟩ = []
    ∧ calculate_coverage 30 0 ⟨1, [("Timme", [Cell.nat 0])]⟩ = 0
    ∧ check_duplicates ⟨1, [("Timme", [Cell.nat 0])]⟩ = 0 :=
  ⟨((claim_C10_missing_columns ⟨1, [("Timme", [Cell.nat 0])]⟩ 0).1 (by decide) rfl).1,
   ((claim_C10_missing_columns ⟨1, [("Timme", [Cell.nat 0])]⟩ 0).1 (by decide) rfl).2.1,
   ((claim_C10_missing_columns ⟨1, [("Timme", [Cell.nat 0])]⟩ 0).1 (by decide) rfl).2.2,
   (claim_C10_missing_columns ⟨1, [("Timme", [Cell.nat 0])]⟩ 0).2 (Or.inl rfl)⟩

/-! ### Backup retention (claim C9) -/

theorem insertLe_ble_gt (t : Nat) :
    ∀ (l : List Nat), (∀ y ∈ l, y < t) → insertLe Nat.ble t l = l ++ [t] := by
  intro l
  induction l with
  | nil => intro _; rfl
  | cons y ys ih =>
    intro h
    have hy : Nat.ble t y = false := by
      rw [Bool.eq_false_iff, Ne, Nat.ble_eq]
      have := h y (List.mem_cons_self y ys)
      omega
    unfold insertLe
    rw [hy]
    simp only [Bool.false_eq_true, if_false, List.cons_append]
    rw [ih (fun z hz => h z (List.mem_cons_of_mem y hz))]

theorem sortLe_ble_of_sorted {l : List Nat}
    (h : l.Pairwise (fun a b => a < b)) : sortLe Nat.ble l = l := by
  have hble : l.Pairwise (fun a b => Nat.ble a b = true) := by
    refine h.imp ?_
    intro a b hab
    rw [Nat.ble_eq]
    omega
  refine eq_of_perm_of_pairwise Nat.ble (perm_sortLe Nat.ble l)
    (pairwise_sortLe Nat.ble ?_ ?_ l) hble ?_
  · intro a b
    rw [Nat.ble_eq, Nat.ble_eq]
    omega
  · intro a b c
    rw [Nat.ble_eq, Nat.ble_eq, Nat.ble_eq]
    omega
  · intro a b _ _ hab hba
    rw [Nat.ble_eq] at hab hba
    omega

/-- One save step on an existing master with an ascending backup list whose
timestamps all precede the new one: the new backup lands at the end, and
the retention trims to the last five when more than five exist. -/
theorem save_snoc (bs : List Nat) (t : Nat)
    (hasc : bs.Pairwise (fun a b => a < b)) (hlt : ∀ y ∈ bs, y < t) :
    save_master_data ⟨true, bs⟩ t =
      ⟨true, if 5 < bs.length + 1 then keepLast 5 (bs ++ [t]) else bs ++ [t]⟩ := by
  unfold save_master_data
  rw [if_pos rfl]
  have hsort : sortLe Nat.ble (t :: bs) = bs ++ [t] := by
    show insertLe Nat.ble t (sortLe Nat.ble bs) = bs ++ [t]
    rw [sortLe_ble_of_sorted hasc]
    exact insertLe_ble_gt t bs hlt
  rw [hsort]
  simp

/-- Claim C9: starting with no master file, seven consecutive saves with
strictly increasing timestamps leave exactly the five most recent backups
(`t3 … t7`; the first save creates no backup), and one save step never
leaves more than five backups. -/
theorem claim_C9_backup_retention (t1 t2 t3 t4 t5 t6 t7 : Nat) (s : FSState)
    (t : Nat) (h12 : t1 < t2) (h23 : t2 < t3) (h34 : t3 < t4) (h45 : t4 < t5)
    (h56 : t5 < t6) (h67 : t6 < t7) (hs : s.backups.length ≤ 5) :
    (save_master_data (save_master_data (save_master_data (save_master_data
      (save_master_data (save_master_data (save_master_data ⟨false, []⟩ t1) t2) t3)
        t4) t5) t6) t7).backups = [t3, t4, t5, t6, t7]
    ∧ (save_master_data s t).backups.length ≤ 5 := by
  constructor
  · have e1 : save_master_data ⟨false, []⟩ t1 = ⟨true, []⟩ := rfl
    have e2 : save_master_data (⟨true, []⟩ : FSState) t2 = ⟨true, [t2]⟩ := by
      rw [save_snoc [] t2 (by simp) (by simp)]
      simp [keepLast]
    have e3 : save_master_data (⟨true, [t2]⟩ : FSState) t3 = ⟨true, [t2, t3]⟩ := by
      rw [save_snoc [t2] t3 (by simp) (by simp [h23])]
      simp [keepLast]
    have e4 : save_master_data (⟨true, [t2, t3]⟩ : FSState) t4
        = ⟨true, [t2, t3, t4]⟩ := by
      rw [save_snoc [t2, t3] t4 (by simp [h23]) (by simp; omega)]
      simp [keepLast]
    have e5 : save_master_data (⟨true, [t2, t3, t4]⟩ : FSState) t5
        = ⟨true, [t2, t3, t4, t5]⟩ := by
      rw [save_snoc [t2, t3, t4] t5 (by simp; omega) (by simp; omega)]
      simp [keepLast]
    have e6 : save_master_data (⟨true, [t2, t3, t4, t5]⟩ : FSState) t6
        = ⟨true, [t2, t3, t4, t5, t6]⟩ := by
      rw [save_snoc [t2, t3, t4, t5] t6 (by simp; omega) (by simp; omega)]
      simp [keepLast]
    have e7 : save_master_data (⟨true, [t2, t3, t4, t5, t6]⟩ : FSState) t7
        = ⟨true, [t3, t4, t5, t6, t7]⟩ := by
      rw [save_snoc [t2, t3, t4, t5, t6] t7 (by simp; omega) (by simp; omega)]
      simp [keepLast]
    rw [e1, e2, e3, e4, e5, e6, e7]
  · unfold save_master_data
    by_cases hm : s.masterExists
    · rw [if_pos hm]
      dsimp only
      by_cases h5 : 5 < (sortLe Nat.ble (t :: s.backups)).length
      · rw [if_pos h5]
        unfold keepLast
        rw [List.length_drop]
        omega
      · rw [if_neg h5]
        omega
    · rw [if_neg hm]
      exact hs

/-- Witness for C9 at timestamps 1–7 and a saturated five-backup state. -/
theorem claim_C9_witness :
    (save_master_data (save_master_data (save_master_data (save_master_data
      (save_master_data (save_master_data (save_master_data ⟨false, []⟩ 1) 2) 3)
        4) 5) 6) 7).backups = [3, 4, 5, 6, 7]
    ∧ (save_master_data ⟨true, [10, 11, 12, 13, 14]⟩ 15).backups.length ≤ 5 :=
  claim_C9_backup_retention 1 2 3 4 5 6 7 ⟨true, [10, 11, 12, 13, 14]⟩ 15
    (by decide) (by decide) (by decide) (by decide) (by decide) (by decide)
    (by decide)

end SVK
